import Mathlib

/-!
Verification development for the exchange-rate chat server in
`src/server/main.py` of `Vskesha/GoIT_Web_homework_5`.

The Python source is shallowly embedded: Python dicts become association
lists built by the same insert/update operations, the mutable
`DataFetcher`/`Server` objects become explicit state records threaded
through the functions, `async`/`await` sequencing becomes plain
sequencing (each message is processed to completion before the next one
of the same session, as in the source event loop), exceptions become an
explicit `Except` error channel whose error type distinguishes the
exception classes the source distinguishes (`HttpError` versus the JSON
and key errors that are NOT caught by the `except HttpError` handler),
and the upstream HTTP service plus the cache file become explicit
environment parameters.  `get_exchanges` additionally returns the list
of dates for which an upstream request was issued (a pure
instrumentation log mirroring the `logging.info("Fetching data …")`
call sites); nothing else of the source is changed by it.
-/

set_option maxRecDepth 8000

/-- Association-list model of a Python `dict` with string keys (insertion
order preserved, one entry per key when built from `dset`). -/
abbrev Dict (α : Type) : Type := List (String × α)

/-- Key lookup, modelling both `k in d` (via `Option.isSome`) and `d[k]`. -/
def dget {α : Type} : Dict α → String → Option α
  | [], _ => none
  | (k2, v) :: t, k => if k2 = k then some v else dget t k

/-- Python dict assignment `d[k] = v`: replaces the value in place if the
key is present, otherwise appends the new entry at the end. -/
def dset {α : Type} : Dict α → String → α → Dict α
  | [], k, v => [(k, v)]
  | (k2, v2) :: t, k, v => if k2 = k then (k2, v) :: t else (k2, v2) :: dset t k v

/-- The closed catalog `ALL_CURRENCIES` of `main.py` (a Python set; modelled
as the list of its elements, used only through membership). -/
def ALL_CURRENCIES : List String :=
  ["SEK", "DKK", "GEL", "CZK", "TRY", "KZT", "ILS", "AZN", "JPY", "CAD",
   "BYN", "UAH", "NOK", "USD", "CHF", "CNY", "MDL", "HUF", "XAU", "EUR",
   "SGD", "PLN", "UZS", "TMT", "AUD", "GBP"]

/-- `BASE_URL` of `main.py`. -/
def BASE_URL : String := "https://api.privatbank.ua/p24api/exchange_rates?date="

/-- The initial tracked-currency list set in `DataFetcher.__init__`. -/
def currencies_init : List String := ["USD", "EUR"]

/-- The `", ".join(self.currencies)` rendering used by the informational
messages of `add_currency` / `remove_currency`. -/
def joinCurrencies (cs : List String) : String := String.intercalate ", " cs

/-- `DataFetcher.add_currency`: returns the updated tracked list and the
informational message, exactly as built by the f-strings of the source. -/
def add_currency (cs : List String) (currency : String) : List String × String :=
  if currency ∈ ALL_CURRENCIES then
    if currency ∉ cs then
      (cs ++ [currency],
       currency ++ " was added. Current currencies: " ++ joinCurrencies (cs ++ [currency]))
    else
      (cs, currency ++ " is already in the list. Current currencies: " ++ joinCurrencies cs)
  else
    (cs, "There is no such currency. Current currencies: " ++ joinCurrencies cs)

/-- `DataFetcher.remove_currency` (Python `list.remove` deletes the first
occurrence, i.e. `List.erase`). -/
def remove_currency (cs : List String) (currency : String) : List String × String :=
  if currency ∈ cs then
    (cs.erase currency,
     currency ++ " was removed. Current currencies: " ++ joinCurrencies (cs.erase currency))
  else
    (cs, currency ++ " is not in the list. Current currencies: " ++ joinCurrencies cs)

/-- Invariant of the tracked-currency list: every code is drawn from the
closed catalog and no code appears twice. -/
def trackedInv (cs : List String) : Prop :=
  (∀ c ∈ cs, c ∈ ALL_CURRENCIES) ∧ cs.Nodup

/-- Calendar date, modelling the `datetime` value `today` of `get_exchanges`. -/
structure Date where
  year : Nat
  month : Nat
  day : Nat
deriving DecidableEq, Repr

/-- Gregorian leap-year rule (as implemented by `datetime`). -/
def isLeap (y : Nat) : Bool := y % 4 == 0 && (y % 100 != 0 || y % 400 == 0)

/-- Number of days of month `m` of year `y`. -/
def daysInMonth (y m : Nat) : Nat :=
  if m = 2 then (if isLeap y then 29 else 28)
  else if m = 4 ∨ m = 6 ∨ m = 9 ∨ m = 11 then 30
  else 31

/-- One day earlier, modelling `date - timedelta(days=1)`. -/
def prevDay (d : Date) : Date :=
  if d.day > 1 then { d with day := d.day - 1 }
  else if d.month > 1 then
    { year := d.year, month := d.month - 1, day := daysInMonth d.year (d.month - 1) }
  else { year := d.year - 1, month := 12, day := 31 }

/-- `today - timedelta(days=i)`. -/
def backDays (d : Date) (i : Nat) : Date := prevDay^[i] d

/-- Zero-padding to two digits, as `%d` / `%m` of `strftime`. -/
def pad2 (n : Nat) : String := if n < 10 then "0" ++ toString n else toString n

/-- `date.strftime("%d.%m.%Y")`. -/
def dateStr (d : Date) : String :=
  pad2 d.day ++ "." ++ pad2 d.month ++ "." ++ toString d.year

/-- One element of the `exchangeRate` list of a provider payload.  Each
field models `cur_dict.get(key)`: `none` when the key is missing.  Rate
values are numeric per the upstream interface and modelled as rationals. -/
structure CurDict where
  currency : Option String
  purchaseRate : Option ℚ
  saleRate : Option ℚ
  saleRateNB : Option ℚ
deriving DecidableEq, Repr

/-- A raw provider payload as cached and consumed by `get_exchanges`:
`exchangeRate` is `none` when the decoded JSON object has no
`"exchangeRate"` key (in which case `date_data["exchangeRate"]` raises
a `KeyError`). -/
structure Payload where
  exchangeRate : Option (List CurDict)
deriving DecidableEq, Repr

/-- Body of an upstream HTTP response: either JSON that decodes to a
payload or a body on which `response.json()` raises. -/
inductive Body
  | invalidJson
  | json (p : Payload)
deriving DecidableEq, Repr

/-- Outcome of one `session.get(url)`: the connection-level failures the
source catches, or a status code with a body. -/
inductive Response
  | connectionError (msg : String)
  | invalidURL (msg : String)
  | status (code : Nat) (body : Body)
deriving DecidableEq, Repr

/-- The Python exceptions that can cross the functions under study.
`httpError` is the source-defined `HttpError`; the other constructors are
exception classes the source does NOT convert to `HttpError` (and hence
are not caught by the `except HttpError` clause of `handle_messages`). -/
inductive PyError
  | httpError (msg : String)
  | jsonDecodeError
  | keyError (k : String)
deriving DecidableEq, Repr

/-- `DataFetcher.request`: HTTP 200 yields the decoded JSON (raising a
decode error, not `HttpError`, on an undecodable body); any other status
raises `HttpError`; connection-level failures are converted to
`HttpError`. -/
def request (fetch : String → Response) (url : String) : Except PyError Payload :=
  match fetch url with
  | Response.connectionError err => Except.error (PyError.httpError ("Connection error: " ++ url ++ " " ++ err))
  | Response.invalidURL err => Except.error (PyError.httpError ("Connection error: " ++ url ++ " " ++ err))
  | Response.status code body =>
    if code = 200 then
      match body with
      | Body.json p => Except.ok p
      | Body.invalidJson => Except.error PyError.jsonDecodeError
    else
      Except.error (PyError.httpError ("Error status: " ++ toString code ++ " for " ++ url))

/-- Contents of the durable cache file. -/
inductive CacheFileContent
  | missing
  | invalidJson
  | valid (c : Dict Payload)
deriving DecidableEq, Repr

/-- `DataFetcher.load_json_sync` (also covering `load_from_cache`, which
only offloads it to a worker pool): a missing file yields `{}`; a file
whose contents are not valid JSON raises a decode error that is NOT
caught (only `FileNotFoundError` is). -/
def load_json_sync (f : CacheFileContent) : Except PyError (Dict Payload) :=
  match f with
  | CacheFileContent.missing => Except.ok []
  | CacheFileContent.invalidJson => Except.error PyError.jsonDecodeError
  | CacheFileContent.valid c => Except.ok c

/-- The per-currency row of the normalized table. -/
structure Triple where
  buy : String
  sell : String
  NBU : String
deriving DecidableEq, Repr

/-- The `"---"` sentinel triple used to initialise `rates`. -/
def noData : Triple := { buy := "---", sell := "---", NBU := "---" }

/-- Two-decimal rendering of a nonnegative scaled integer `n` of
hundredths: integral part, a dot, and the two-digit fractional part. -/
def fmtHundredths (n : Nat) : String :=
  toString (n / 100) ++ "." ++ pad2 (n % 100)

/-- Model of the Python float formatting `f"{v:0.2f}"`: round to the
nearest hundredth and print with exactly two digits after the dot. -/
def fmt2 (v : ℚ) : String :=
  if v < 0 then "-" ++ fmtHundredths (round (-v * 100)).toNat
  else fmtHundredths (round (v * 100)).toNat

/-- One conditional-expression field of the `rates[currency]` update:
`f"{x:0.2f}" if cur_dict.get(key) else "---"` — a missing key and a zero
value are both falsy and give the sentinel. -/
def fmtField (o : Option ℚ) : String :=
  match o with
  | none => "---"
  | some v => if v = 0 then "---" else fmt2 v

/-- The triple assigned by the `rates[currency] = {...}` statement for one
matching `cur_dict`. -/
def mkTriple (cd : CurDict) : Triple :=
  { buy := fmtField cd.purchaseRate
    sell := fmtField cd.saleRate
    NBU := fmtField cd.saleRateNB }

/-- The dict comprehension
`{currency: {"buy": "---", "sell": "---", "NBU": "---"} for currency in self.currencies}`. -/
def initRates (cs : List String) : Dict Triple :=
  cs.foldl (fun d c => dset d c noData) []

/-- The normalization loop over `date_data["exchangeRate"]` of
`get_exchanges`: for each entry whose `currency` is tracked, overwrite
that row of `rates`. -/
def normalizeDay (cs : List String) (lst : List CurDict) : Dict Triple :=
  lst.foldl
    (fun rates cd =>
      match cd.currency with
      | some c => if c ∈ cs then dset rates c (mkTriple cd) else rates
      | none => rates)
    (initRates cs)

/-- State of a `DataFetcher` instance together with the durable cache file
it owns: `self.currencies` plus the contents of `self.cache_file`. -/
structure FetcherState where
  currencies : List String
  cacheFile : CacheFileContent
deriving DecidableEq, Repr

/-- The `for i in range(days)` loop of `get_exchanges`, processing the
dates `today - i`, `today - (i+1)`, … while `n` days remain.  Returns the
instrumentation log of dates for which an upstream request was issued,
and either the first uncaught exception or the grown cache together with
the list of `{date_: rates}` entries in loop order. -/
def exchLoop (fetch : String → Response) (cs : List String) (today : Date) :
    Nat → Nat → Dict Payload →
    List String × Except PyError (Dict Payload × List (String × Dict Triple))
  | _, 0, cache => ([], Except.ok (cache, []))
  | i, n + 1, cache =>
    let date_ := dateStr (backDays today i)
    match dget cache date_ with
    | some p =>
      match p.exchangeRate with
      | none => ([], Except.error (PyError.keyError "exchangeRate"))
      | some lst =>
        let rates := normalizeDay cs lst
        let r := exchLoop fetch cs today (i + 1) n cache
        (r.1, r.2.map (fun pr => (pr.1, (date_, rates) :: pr.2)))
    | none =>
      match request fetch (BASE_URL ++ date_) with
      | Except.error e => ([date_], Except.error e)
      | Except.ok p =>
        let cache2 := dset cache date_ p
        match p.exchangeRate with
        | none => ([date_], Except.error (PyError.keyError "exchangeRate"))
        | some lst =>
          let rates := normalizeDay cs lst
          let r := exchLoop fetch cs today (i + 1) n cache2
          (date_ :: r.1, r.2.map (fun pr => (pr.1, (date_, rates) :: pr.2)))

/-- `DataFetcher.get_exchanges`: load the cache, resolve each requested
day from cache or upstream, persist the grown cache, and return
`self.currencies` as headers together with the per-day entries.  The
first component is the instrumentation log of issued upstream requests;
on an error the exception propagates before `save_to_cache` runs, so no
new fetcher state is produced. -/
def get_exchanges (fetch : String → Response) (st : FetcherState) (today : Date)
    (days : Nat) :
    List String ×
      Except PyError (FetcherState × List String × List (String × Dict Triple)) :=
  match load_json_sync st.cacheFile with
  | Except.error e => ([], Except.error e)
  | Except.ok cache =>
    match exchLoop fetch st.currencies today 0 days cache with
    | (log, Except.error e) => (log, Except.error e)
    | (log, Except.ok (cache2, result)) =>
      (log,
       Except.ok ({ st with cacheFile := CacheFileContent.valid cache2 },
                  st.currencies, result))

/-- One connected websocket session: its generated display name plus an
opaque identity (distinct sessions may share a display name). -/
structure Session where
  sid : Nat
  name : String
deriving DecidableEq, Repr

/-- Whole-server state: the registered client set (`self.clients`, ordered
here only for fan-out bookkeeping) and the shared fetcher. -/
structure ServerState where
  clients : List Session
  fetcher : FetcherState
deriving DecidableEq, Repr

/-- A message sent to one session: either text or the rendered exchange
table.  Table rendering itself (`Table.make_table`, a pure Jinja template
application) is out of scope; the artifact is modelled by the data handed
to it: the headers and the per-day entries. -/
inductive Outgoing
  | text (s : String)
  | table (headers : List String) (data : List (String × Dict Triple))
deriving DecidableEq, Repr

/-- `Server.send_to_clients`: deliver the message to every currently
registered client (the `if self.clients` guard is a no-op for the empty
set). -/
def send_to_clients (st : ServerState) (message : String) : List (Session × Outgoing) :=
  st.clients.map (fun c => (c, Outgoing.text message))

/-- Helper of `pySplit`: walk the characters, accumulating the current
word reversed. -/
def splitWsAux : List Char → List Char → List String
  | [], acc => if acc = [] then [] else [String.mk acc.reverse]
  | c :: rest, acc =>
    if c.isWhitespace then
      (if acc = [] then splitWsAux rest []
       else String.mk acc.reverse :: splitWsAux rest [])
    else splitWsAux rest (c :: acc)

/-- Python `str.split()` with no argument: split on whitespace runs,
discarding empty pieces. -/
def pySplit (s : String) : List String := splitWsAux s.data []

/-- Python `str.startswith`. -/
def pyStartsWith (s pre : String) : Bool := pre.data.isPrefixOf s.data

/-- Python `str.lower` (ASCII). -/
def pyLower (s : String) : String := String.mk (s.data.map Char.toLower)

/-- Python `str.upper` (ASCII). -/
def pyUpper (s : String) : String := String.mk (s.data.map Char.toUpper)

/-- Python `str.isdigit` restricted to ASCII: nonempty and all digits. -/
def pyIsdigit (s : String) : Bool :=
  !s.data.isEmpty && s.data.all Char.isDigit

/-- Python `int` on a digit string. -/
def parseNat (s : String) : Nat :=
  s.data.foldl (fun n c => n * 10 + (c.toNat - 48)) 0

/-- Guard of the `add` branch: `len(args) > 2 and args[1].lower() == "add"`. -/
def isAddCmd (args : List String) : Bool :=
  args.length > 2 && pyLower (args.getD 1 "") == "add"

/-- Guard of the `remove` branch. -/
def isRemoveCmd (args : List String) : Bool :=
  args.length > 2 && pyLower (args.getD 1 "") == "remove"

/-- The `days` computation of the final branch: default 1, and
`min(10, max(1, int(args[1])))` when `args[1]` exists and is numeric. -/
def showDays (args : List String) : Nat :=
  if args.length > 1 && pyIsdigit (args.getD 1 "") then
    min 10 (max 1 (parseNat (args.getD 1 "")))
  else 1

/-- Body of the `try` block of `handle_messages` for an
`exchange`-prefixed message (already split into `args`): dispatch to
`add_currency`, `remove_currency`, or the table path.  Returns the new
server state and the messages sent, or the escaping exception. -/
def exchange_command (fetch : String → Response) (today : Date) (st : ServerState)
    (ws : Session) (args : List String) :
    Except PyError (ServerState × List (Session × Outgoing)) :=
  if isAddCmd args then
    let r := add_currency st.fetcher.currencies (pyUpper (args.getD 2 ""))
    Except.ok ({ st with fetcher := { st.fetcher with currencies := r.1 } },
               [(ws, Outgoing.text r.2)])
  else if isRemoveCmd args then
    let r := remove_currency st.fetcher.currencies (pyUpper (args.getD 2 ""))
    Except.ok ({ st with fetcher := { st.fetcher with currencies := r.1 } },
               [(ws, Outgoing.text r.2)])
  else
    match (get_exchanges fetch st.fetcher today (showDays args)).2 with
    | Except.error e => Except.error e
    | Except.ok (fst, headers, exchanges) =>
      Except.ok ({ st with fetcher := fst }, [(ws, Outgoing.table headers exchanges)])

/-- One iteration of the `async for message in ws` loop of
`Server.handle_messages`: an `exchange`-prefixed line is dispatched
inside `try … except HttpError` (only `HttpError` is caught and turned
into the generic failure text; every other exception escapes); any other
line is broadcast as `"{name}: {message}"`.  The append-only activity
log write is an out-of-scope sink and not modelled. -/
def handle_messages (fetch : String → Response) (today : Date) (st : ServerState)
    (ws : Session) (message : String) :
    Except PyError (ServerState × List (Session × Outgoing)) :=
  if pyStartsWith message "exchange" then
    match exchange_command fetch today st ws (pySplit message) with
    | Except.ok r => Except.ok r
    | Except.error (PyError.httpError _) =>
      Except.ok (st, [(ws, Outgoing.text "Something went wrong")])
    | Except.error e => Except.error e
  else
    Except.ok (st, send_to_clients st (ws.name ++ ": " ++ message))

/-- The `Command` sum type of the specification, as parsed by the
dispatch conditions of `handle_messages`. -/
inductive Command
  | addCurrency (code : String)
  | removeCurrency (code : String)
  | showExchange (days : Nat)
  | chat (text : String)
deriving DecidableEq, Repr

/-- Classification of one inbound line per the dispatch structure of
`handle_messages`. -/
def classify (message : String) : Command :=
  if pyStartsWith message "exchange" then
    let args := pySplit message
    if isAddCmd args then Command.addCurrency (pyUpper (args.getD 2 ""))
    else if isRemoveCmd args then Command.removeCurrency (pyUpper (args.getD 2 ""))
    else Command.showExchange (showDays args)
  else Command.chat message

/-- A response on which the single-day fetch fails in one of the three
ways `request` converts to `HttpError`: non-200 status, connection
failure, or invalid URL. -/
def failsB : Response → Bool
  | Response.connectionError _ => true
  | Response.invalidURL _ => true
  | Response.status code _ => code != 200

/-- A well-behaved upstream apart from its failures: every non-failing
response is an HTTP 200 whose body decodes to a payload carrying an
`exchangeRate` list. -/
def envGood (fetch : String → Response) : Prop :=
  ∀ url, failsB (fetch url) = false →
    ∃ p lst, fetch url = Response.status 200 (Body.json p) ∧ p.exchangeRate = some lst

/-- Every payload of the cache snapshot carries an `exchangeRate` list. -/
def cacheGood (c : Dict Payload) : Prop :=
  ∀ k p, dget c k = some p → ∃ lst, p.exchangeRate = some lst

/-- The last `exchangeRate` entry naming currency `c` (the normalization
loop overwrites the row on every match, so the last one stands). -/
def lastEntryFor (lst : List CurDict) (c : String) : Option CurDict :=
  lst.foldl (fun acc cd => if cd.currency = some c then some cd else acc) none

/-- Specification-side per-currency row: the formatted triple of the last
payload entry naming the currency, or the sentinel row when the currency
does not appear in the payload. -/
def ratesFor (lst : List CurDict) (c : String) : Triple :=
  match lastEntryFor lst c with
  | none => noData
  | some cd => mkTriple cd

instance (cs : List String) : Decidable (trackedInv cs) :=
  inferInstanceAs (Decidable ((∀ c ∈ cs, c ∈ ALL_CURRENCIES) ∧ cs.Nodup))

/-- Empty-but-well-formed payload used by the concrete witnesses. -/
def pEmpty : Payload := { exchangeRate := some [] }

/-- An upstream that always answers HTTP 200 with a well-formed payload. -/
def okFetchW : String → Response := fun _ => Response.status 200 (Body.json pEmpty)

/-- Concrete date used by the witnesses. -/
def wDate : Date := { year := 2026, month := 10, day := 12 }

/-- Concrete session used by the witnesses. -/
def wSession : Session := { sid := 0, name := "Alice Smith" }

/-- Concrete server state with an empty cache file. -/
def wState : ServerState :=
  { clients := [wSession], fetcher := { currencies := ["USD", "EUR"], cacheFile := CacheFileContent.missing } }

/-- Expected post-state of `wState` after fetching the two days before
(and including) `wDate`. -/
def wState2 : ServerState :=
  { clients := [wSession],
    fetcher := { currencies := ["USD", "EUR"],
                 cacheFile := CacheFileContent.valid
                   [("12.10.2026", pEmpty), ("11.10.2026", pEmpty)] } }

/-- Expected sends for the two-day table. -/
def wSends : List (Session × Outgoing) :=
  [(wSession, Outgoing.table ["USD", "EUR"]
    [("12.10.2026", [("USD", noData), ("EUR", noData)]),
     ("11.10.2026", [("USD", noData), ("EUR", noData)])])]

/-- An upstream that always answers HTTP 500. -/
def failFetchW : String → Response := fun _ => Response.status 500 Body.invalidJson

/-- Server state whose durable cache file holds invalid JSON. -/
def corruptState : ServerState :=
  { clients := [],
    fetcher := { currencies := ["USD", "EUR"],
                 cacheFile := CacheFileContent.invalidJson } }

/-- Two-session server state for the broadcast witness. -/
def wStateB : ServerState :=
  { clients := [wSession, { sid := 1, name := "Bob Jones" }],
    fetcher := { currencies := ["USD", "EUR"], cacheFile := CacheFileContent.missing } }

theorem dget_dset {α : Type} (c : Dict α) (k k2 : String) (v : α) :
    dget (dset c k v) k2 = if k2 = k then some v else dget c k2 := by
  induction c with
  | nil =>
    by_cases h : k2 = k
    · subst h; simp [dset, dget]
    · have h2 : ¬ k = k2 := fun e => h e.symm
      simp [dset, dget, h, h2]
  | cons e t ih =>
    obtain ⟨k3, v3⟩ := e
    by_cases h3 : k3 = k
    · subst h3
      by_cases h : k3 = k2
      · subst h
        simp [dset, dget]
      · have h2 : ¬ k2 = k3 := fun e => h e.symm
        simp [dset, dget, h, h2]
    · by_cases h : k3 = k2
      · subst h
        simp [dset, dget, h3]
      · simp [dset, dget, h3, h, ih]

theorem dget_dset_self {α : Type} (c : Dict α) (k : String) (v : α) :
    dget (dset c k v) k = some v := by
  rw [dget_dset]; simp

theorem dget_dset_ne {α : Type} (c : Dict α) (k k2 : String) (v : α) (h : k2 ≠ k) :
    dget (dset c k v) k2 = dget c k2 := by
  rw [dget_dset]; simp [h]

theorem exchLoop_log_fresh (fetch : String → Response) (cs : List String) (today : Date) :
    ∀ n i cache d, d ∈ (exchLoop fetch cs today i n cache).1 → dget cache d = none := by
  intro n
  induction n with
  | zero => intro i cache d h; simp [exchLoop] at h
  | succ n ih =>
    intro i cache d h
    simp only [exchLoop] at h
    split at h
    · -- cached: dget cache date_ = some p
      split at h
      · simp at h
      · simp only at h
        exact ih (i + 1) cache d h
    · -- not cached
      rename_i hc
      split at h
      · -- request failed
        simp at h
        subst h
        exact hc
      · split at h
        · simp at h
          subst h
          exact hc
        · simp only [List.mem_cons] at h
          rcases h with h | h
          · subst h; exact hc
          · have h2 := ih (i + 1) _ d h
            rw [dget_dset] at h2
            by_cases he : d = dateStr (backDays today i)
            · rw [if_pos he] at h2; exact absurd h2 (by simp)
            · rwa [if_neg he] at h2
theorem exchLoop_preserve (fetch : String → Response) (cs : List String) (today : Date) :
    ∀ n i cache log c2 res,
      exchLoop fetch cs today i n cache = (log, Except.ok (c2, res)) →
      ∀ k v, dget cache k = some v → dget c2 k = some v := by
  intro n
  induction n with
  | zero =>
    intro i cache log c2 res h k v hk
    simp only [exchLoop, Prod.mk.injEq, Except.ok.injEq] at h
    obtain ⟨-, h2, -⟩ := h
    subst h2
    exact hk
  | succ n ih =>
    intro i cache log c2 res h k v hk
    rcases hc : dget cache (dateStr (backDays today i)) with _ | p
    · rcases hreq : request fetch (BASE_URL ++ dateStr (backDays today i)) with e | p
      · simp [exchLoop, hc, hreq] at h
      · rcases hex : p.exchangeRate with _ | lst
        · simp [exchLoop, hc, hreq, hex] at h
        · rcases hr : exchLoop fetch cs today (i + 1) n
            (dset cache (dateStr (backDays today i)) p) with ⟨log2, r2⟩
          cases r2 with
          | error e => simp [exchLoop, hc, hreq, hex, hr, Except.map] at h
          | ok pr =>
            obtain ⟨pr1, pr2⟩ := pr
            simp only [exchLoop, hc, hreq, hex, hr, Except.map, Prod.mk.injEq,
              Except.ok.injEq] at h
            obtain ⟨-, h2, -⟩ := h
            subst h2
            have hne : k ≠ dateStr (backDays today i) := by
              intro he
              rw [he, hc] at hk
              exact absurd hk (by simp)
            refine ih (i + 1) _ log2 _ pr2 (by rw [hr]) k v ?_
            rw [dget_dset_ne _ _ _ _ hne]
            exact hk
    · rcases hex : p.exchangeRate with _ | lst
      · simp [exchLoop, hc, hex] at h
      · rcases hr : exchLoop fetch cs today (i + 1) n cache with ⟨log2, r2⟩
        cases r2 with
        | error e => simp [exchLoop, hc, hex, hr, Except.map] at h
        | ok pr =>
          obtain ⟨pr1, pr2⟩ := pr
          simp only [exchLoop, hc, hex, hr, Except.map, Prod.mk.injEq,
            Except.ok.injEq] at h
          obtain ⟨-, h2, -⟩ := h
          subst h2
          exact ih (i + 1) cache log2 _ pr2 (by rw [hr]) k v hk

theorem exchLoop_log_mem (fetch : String → Response) (cs : List String) (today : Date) :
    ∀ n i cache log c2 res,
      exchLoop fetch cs today i n cache = (log, Except.ok (c2, res)) →
      ∀ d ∈ log, ∃ v, dget c2 d = some v := by
  intro n
  induction n with
  | zero =>
    intro i cache log c2 res h d hd
    simp only [exchLoop, Prod.mk.injEq, Except.ok.injEq] at h
    obtain ⟨h1, -, -⟩ := h
    subst h1
    simp at hd
  | succ n ih =>
    intro i cache log c2 res h d hd
    rcases hc : dget cache (dateStr (backDays today i)) with _ | p
    · rcases hreq : request fetch (BASE_URL ++ dateStr (backDays today i)) with e | p
      · simp [exchLoop, hc, hreq] at h
      · rcases hex : p.exchangeRate with _ | lst
        · simp [exchLoop, hc, hreq, hex] at h
        · rcases hr : exchLoop fetch cs today (i + 1) n
            (dset cache (dateStr (backDays today i)) p) with ⟨log2, r2⟩
          cases r2 with
          | error e => simp [exchLoop, hc, hreq, hex, hr, Except.map] at h
          | ok pr =>
            obtain ⟨pr1, pr2⟩ := pr
            simp only [exchLoop, hc, hreq, hex, hr, Except.map, Prod.mk.injEq,
              Except.ok.injEq] at h
            obtain ⟨h1, h2, -⟩ := h
            subst h1
            subst h2
            rcases List.mem_cons.mp hd with h3 | h3
            · subst h3
              refine ⟨p, ?_⟩
              exact exchLoop_preserve fetch cs today n (i + 1) _ log2 _ pr2
                (by rw [hr]) _ p (dget_dset_self _ _ _)
            · exact ih (i + 1) _ log2 _ pr2 (by rw [hr]) d h3
    · rcases hex : p.exchangeRate with _ | lst
      · simp [exchLoop, hc, hex] at h
      · rcases hr : exchLoop fetch cs today (i + 1) n cache with ⟨log2, r2⟩
        cases r2 with
        | error e => simp [exchLoop, hc, hex, hr, Except.map] at h
        | ok pr =>
          obtain ⟨pr1, pr2⟩ := pr
          simp only [exchLoop, hc, hex, hr, Except.map, Prod.mk.injEq,
            Except.ok.injEq] at h
          obtain ⟨h1, h2, -⟩ := h
          subst h1
          subst h2
          exact ih (i + 1) cache log2 _ pr2 (by rw [hr]) d hd

theorem exchLoop_new_keys (fetch : String → Response) (cs : List String) (today : Date) :
    ∀ n i cache log c2 res,
      exchLoop fetch cs today i n cache = (log, Except.ok (c2, res)) →
      ∀ k, (dget c2 k).isSome → (dget cache k).isSome ∨ k ∈ log := by
  intro n
  induction n with
  | zero =>
    intro i cache log c2 res h k hk
    simp only [exchLoop, Prod.mk.injEq, Except.ok.injEq] at h
    obtain ⟨-, h2, -⟩ := h
    subst h2
    exact Or.inl hk
  | succ n ih =>
    intro i cache log c2 res h k hk
    rcases hc : dget cache (dateStr (backDays today i)) with _ | p
    · rcases hreq : request fetch (BASE_URL ++ dateStr (backDays today i)) with e | p
      · simp [exchLoop, hc, hreq] at h
      · rcases hex : p.exchangeRate with _ | lst
        · simp [exchLoop, hc, hreq, hex] at h
        · rcases hr : exchLoop fetch cs today (i + 1) n
            (dset cache (dateStr (backDays today i)) p) with ⟨log2, r2⟩
          cases r2 with
          | error e => simp [exchLoop, hc, hreq, hex, hr, Except.map] at h
          | ok pr =>
            obtain ⟨pr1, pr2⟩ := pr
            simp only [exchLoop, hc, hreq, hex, hr, Except.map, Prod.mk.injEq,
              Except.ok.injEq] at h
            obtain ⟨h1, h2, -⟩ := h
            subst h1
            subst h2
            rcases ih (i + 1) _ log2 _ pr2 (by rw [hr]) k hk with h3 | h3
            · rw [dget_dset] at h3
              by_cases he : k = dateStr (backDays today i)
              · subst he
                exact Or.inr (List.mem_cons_self _ _)
              · rw [if_neg he] at h3
                exact Or.inl h3
            · exact Or.inr (List.mem_cons_of_mem _ h3)
    · rcases hex : p.exchangeRate with _ | lst
      · simp [exchLoop, hc, hex] at h
      · rcases hr : exchLoop fetch cs today (i + 1) n cache with ⟨log2, r2⟩
        cases r2 with
        | error e => simp [exchLoop, hc, hex, hr, Except.map] at h
        | ok pr =>
          obtain ⟨pr1, pr2⟩ := pr
          simp only [exchLoop, hc, hex, hr, Except.map, Prod.mk.injEq,
            Except.ok.injEq] at h
          obtain ⟨h1, h2, -⟩ := h
          subst h1
          subst h2
          exact ih (i + 1) cache log2 _ pr2 (by rw [hr]) k hk

theorem exchLoop_shape (fetch : String → Response) (cs : List String) (today : Date) :
    ∀ n i cache log c2 res,
      exchLoop fetch cs today i n cache = (log, Except.ok (c2, res)) →
      res.length = n ∧
        ∀ j (hj : j < res.length),
          (res.get ⟨j, hj⟩).1 = dateStr (backDays today (i + j)) := by
  intro n
  induction n with
  | zero =>
    intro i cache log c2 res h
    simp only [exchLoop, Prod.mk.injEq, Except.ok.injEq] at h
    obtain ⟨-, -, h3⟩ := h
    subst h3
    exact ⟨rfl, fun j hj => absurd hj (by simp)⟩
  | succ n ih =>
    intro i cache log c2 res h
    rcases hc : dget cache (dateStr (backDays today i)) with _ | p
    · rcases hreq : request fetch (BASE_URL ++ dateStr (backDays today i)) with e | p
      · simp [exchLoop, hc, hreq] at h
      · rcases hex : p.exchangeRate with _ | lst
        · simp [exchLoop, hc, hreq, hex] at h
        · rcases hr : exchLoop fetch cs today (i + 1) n
            (dset cache (dateStr (backDays today i)) p) with ⟨log2, r2⟩
          cases r2 with
          | error e => simp [exchLoop, hc, hreq, hex, hr, Except.map] at h
          | ok pr =>
            obtain ⟨pr1, pr2⟩ := pr
            simp only [exchLoop, hc, hreq, hex, hr, Except.map, Prod.mk.injEq,
              Except.ok.injEq] at h
            obtain ⟨-, -, h3⟩ := h
            subst h3
            obtain ⟨hl, hg⟩ := ih (i + 1) _ log2 _ pr2 (by rw [hr])
            refine ⟨by simp [hl], ?_⟩
            intro j hj
            cases j with
            | zero => simp
            | succ j =>
              have hj2 : j < pr2.length := by
                simp only [List.length_cons] at hj
                omega
              have hidx : i + (j + 1) = i + 1 + j := by omega
              simp only [List.get_cons_succ, hidx]
              exact hg j hj2
    · rcases hex : p.exchangeRate with _ | lst
      · simp [exchLoop, hc, hex] at h
      · rcases hr : exchLoop fetch cs today (i + 1) n cache with ⟨log2, r2⟩
        cases r2 with
        | error e => simp [exchLoop, hc, hex, hr, Except.map] at h
        | ok pr =>
          obtain ⟨pr1, pr2⟩ := pr
          simp only [exchLoop, hc, hex, hr, Except.map, Prod.mk.injEq,
            Except.ok.injEq] at h
          obtain ⟨-, -, h3⟩ := h
          subst h3
          obtain ⟨hl, hg⟩ := ih (i + 1) cache log2 _ pr2 (by rw [hr])
          refine ⟨by simp [hl], ?_⟩
          intro j hj
          cases j with
          | zero => simp
          | succ j =>
            have hj2 : j < pr2.length := by
              simp only [List.length_cons] at hj
              omega
            have hidx : i + (j + 1) = i + 1 + j := by omega
            simp only [List.get_cons_succ, hidx]
            exact hg j hj2

theorem request_fails (fetch : String → Response) (url : String)
    (h : failsB (fetch url) = true) :
    ∃ m, request fetch url = Except.error (PyError.httpError m) := by
  rcases hf : fetch url with m | m | ⟨code, body⟩
  · exact ⟨"Connection error: " ++ url ++ " " ++ m, by simp [request, hf]⟩
  · exact ⟨"Connection error: " ++ url ++ " " ++ m, by simp [request, hf]⟩
  · have hcode : ¬ code = 200 := by
      rw [hf] at h
      simpa [failsB] using h
    exact ⟨"Error status: " ++ toString code ++ " for " ++ url, by simp [request, hf, hcode]⟩

theorem request_ok_of_good (fetch : String → Response) (url : String)
    (henv : envGood fetch) (h : failsB (fetch url) = false) :
    ∃ p lst, request fetch url = Except.ok p ∧ p.exchangeRate = some lst := by
  obtain ⟨p, lst, hf, hex⟩ := henv url h
  exact ⟨p, lst, by simp [request, hf], hex⟩

theorem exchLoop_fails (fetch : String → Response) (cs : List String) (today : Date)
    (henv : envGood fetch) :
    ∀ n i cache, cacheGood cache →
      (∃ j, j < n ∧ dget cache (dateStr (backDays today (i + j))) = none ∧
         failsB (fetch (BASE_URL ++ dateStr (backDays today (i + j)))) = true) →
      ∃ log m,
        exchLoop fetch cs today i n cache = (log, Except.error (PyError.httpError m)) := by
  intro n
  induction n with
  | zero =>
    rintro i cache - ⟨j, hj, -⟩
    omega
  | succ n ih =>
    rintro i cache hcg ⟨j, hj, hnone, hfail⟩
    rcases hc : dget cache (dateStr (backDays today i)) with _ | p
    · rcases hfb : failsB (fetch (BASE_URL ++ dateStr (backDays today i)))
      · -- the current day's fetch succeeds; the failing day is further on
        obtain ⟨p, lst, hreq, hex⟩ :=
          request_ok_of_good fetch (BASE_URL ++ dateStr (backDays today i)) henv hfb
        cases j with
        | zero =>
          rw [Nat.add_zero] at hfail
          rw [hfail] at hfb
          exact absurd hfb (by simp)
        | succ j2 =>
          have hidx : i + (j2 + 1) = i + 1 + j2 := by omega
          rw [hidx] at hnone hfail
          have hne : dateStr (backDays today (i + 1 + j2)) ≠ dateStr (backDays today i) := by
            intro he
            rw [he, hfb] at hfail
            exact absurd hfail (by simp)
          have hcg2 : cacheGood (dset cache (dateStr (backDays today i)) p) := by
            intro k q hk
            rw [dget_dset] at hk
            by_cases he : k = dateStr (backDays today i)
            · rw [if_pos he] at hk
              obtain rfl : p = q := by simpa using hk
              exact ⟨lst, hex⟩
            · rw [if_neg he] at hk
              exact hcg k q hk
          have hnone2 : dget (dset cache (dateStr (backDays today i)) p)
              (dateStr (backDays today (i + 1 + j2))) = none := by
            rw [dget_dset_ne _ _ _ _ hne]
            exact hnone
          obtain ⟨log, m, hlm⟩ :=
            ih (i + 1) _ hcg2 ⟨j2, by omega, hnone2, hfail⟩
          refine ⟨dateStr (backDays today i) :: log, m, ?_⟩
          simp [exchLoop, hc, hreq, hex, hlm, Except.map]
      · -- the current day's fetch fails with HttpError
        obtain ⟨m, hm⟩ := request_fails fetch _ hfb
        refine ⟨[dateStr (backDays today i)], m, ?_⟩
        simp [exchLoop, hc, hm]
    · -- the current day is cached
      obtain ⟨lst, hex⟩ := hcg _ p hc
      cases j with
      | zero =>
        rw [Nat.add_zero] at hnone
        rw [hnone] at hc
        exact absurd hc (by simp)
      | succ j2 =>
        have hidx : i + (j2 + 1) = i + 1 + j2 := by omega
        rw [hidx] at hnone hfail
        obtain ⟨log, m, hlm⟩ := ih (i + 1) cache hcg ⟨j2, by omega, hnone, hfail⟩
        refine ⟨log, m, ?_⟩
        simp [exchLoop, hc, hex, hlm, Except.map]

theorem lastEntryFor_foldl (c : String) :
    ∀ (lst : List CurDict) (acc : Option CurDict),
      lst.foldl (fun acc cd => if cd.currency = some c then some cd else acc) acc =
        match lastEntryFor lst c with
        | some x => some x
        | none => acc := by
  intro lst
  induction lst with
  | nil => intro acc; simp [lastEntryFor]
  | cons cd t ih =>
    intro acc
    simp only [List.foldl_cons, lastEntryFor] at *
    rw [ih (if cd.currency = some c then some cd else acc),
        ih (if cd.currency = some c then some cd else none)]
    rcases hl : t.foldl (fun acc cd => if cd.currency = some c then some cd else acc)
        none with _ | x
    · rw [hl]
      by_cases hc2 : cd.currency = some c
      · simp [hc2]
      · simp [hc2]
    · rw [hl]

theorem dget_initRates (c : String) :
    ∀ (cs : List String) (d : Dict Triple),
      dget (cs.foldl (fun d c2 => dset d c2 noData) d) c =
        if c ∈ cs then some noData else dget d c := by
  intro cs
  induction cs with
  | nil => intro d; simp
  | cons c2 t ih =>
    intro d
    simp only [List.foldl_cons]
    rw [ih (dset d c2 noData)]
    by_cases hm : c ∈ t
    · simp [hm]
    · by_cases he : c = c2
      · subst he
        simp [hm, dget_dset_self]
      · simp only [if_neg hm]
        rw [dget_dset_ne _ _ _ _ he]
        simp [hm, he]

theorem dget_normFold (cs : List String) (c : String) :
    ∀ (lst : List CurDict) (d : Dict Triple),
      dget (lst.foldl (fun rates cd =>
        match cd.currency with
        | some c2 => if c2 ∈ cs then dset rates c2 (mkTriple cd) else rates
        | none => rates) d) c =
      if c ∈ cs then
        (match lastEntryFor lst c with
         | some cd => some (mkTriple cd)
         | none => dget d c)
      else dget d c := by
  intro lst
  induction lst with
  | nil =>
    intro d
    simp [lastEntryFor]
  | cons cd t ih =>
    intro d
    simp only [List.foldl_cons]
    rw [ih]
    have hcons : lastEntryFor (cd :: t) c =
        match lastEntryFor t c with
        | some x => some x
        | none => if cd.currency = some c then some cd else none := by
      simp only [lastEntryFor, List.foldl_cons]
      exact lastEntryFor_foldl c t _
    rw [hcons]
    by_cases hm : c ∈ cs
    · simp only [if_pos hm]
      rcases hl : lastEntryFor t c with _ | x
      · simp only
        rcases hcur : cd.currency with _ | c2
        · simp [hcur]
        · by_cases he : c2 = c
          · subst he
            simp [hcur, hm, dget_dset_self]
          · have hne : ¬ (some c2 = some c) := by simp [he]
            simp only [hcur, if_neg hne]
            by_cases h2 : c2 ∈ cs
            · simp only [if_pos h2]
              rw [dget_dset_ne _ _ _ _ (fun h => he h.symm)]
            · simp [h2]
      · simp
    · simp only [if_neg hm]
      rcases hcur : cd.currency with _ | c2
      · rfl
      · by_cases h2 : c2 ∈ cs
        · simp only [hcur, if_pos h2]
          have he : c ≠ c2 := fun h => hm (h ▸ h2)
          rw [dget_dset_ne _ _ _ _ he]
        · simp [hcur, h2]

theorem dget_normalizeDay (cs : List String) (lst : List CurDict) (c : String) :
    dget (normalizeDay cs lst) c =
      if c ∈ cs then some (ratesFor lst c) else none := by
  unfold normalizeDay ratesFor
  rw [dget_normFold]
  unfold initRates
  by_cases hm : c ∈ cs
  · simp only [if_pos hm]
    rcases hl : lastEntryFor lst c with _ | x
    · rw [dget_initRates]
      simp [hm]
    · rfl
  · simp only [if_neg hm]
    rw [dget_initRates]
    simp [hm, dget]

theorem pad2_length_two : ∀ m, m < 100 → (pad2 m).length = 2 := by decide

theorem fmt2_two_decimals (q : ℚ) (hq : 0 ≤ q) :
    ∃ s t, fmt2 q = s ++ "." ++ t ∧ t.length = 2 := by
  have hneg : ¬ q < 0 := not_lt.mpr hq
  refine ⟨toString ((round (q * 100)).toNat / 100),
    pad2 ((round (q * 100)).toNat % 100), ?_, ?_⟩
  · simp [fmt2, hneg, fmtHundredths]
  · exact pad2_length_two _ (Nat.mod_lt _ (by norm_num))

/-- C6: the tracked currency set starts as exactly {USD, EUR}; initially and
after every `add_currency` / `remove_currency` call every code belongs to the
closed catalog and no code appears twice; adding an invalid or
already-tracked code and removing an untracked code leave the list unchanged
and return the informational message listing the unchanged list. -/
theorem tracked_currency_invariant :
    (currencies_init = ["USD", "EUR"] ∧ trackedInv currencies_init) ∧
    (∀ cs c, trackedInv cs →
      trackedInv (add_currency cs c).1 ∧ trackedInv (remove_currency cs c).1) ∧
    (∀ cs c, c ∉ ALL_CURRENCIES →
      add_currency cs c =
        (cs, "There is no such currency. Current currencies: " ++ joinCurrencies cs)) ∧
    (∀ cs c, c ∈ ALL_CURRENCIES → c ∈ cs →
      add_currency cs c =
        (cs, c ++ " is already in the list. Current currencies: " ++ joinCurrencies cs)) ∧
    (∀ cs c, c ∉ cs →
      remove_currency cs c =
        (cs, c ++ " is not in the list. Current currencies: " ++ joinCurrencies cs)) := by
  refine ⟨⟨rfl, by decide⟩, ?_, ?_, ?_, ?_⟩
  · intro cs c hinv
    constructor
    · unfold add_currency
      by_cases hall : c ∈ ALL_CURRENCIES
      · by_cases hmem : c ∉ cs
        · simp only [if_pos hall, if_pos hmem]
          refine ⟨?_, ?_⟩
          · intro x hx
            rcases List.mem_append.mp hx with hx | hx
            · exact hinv.1 x hx
            · rw [List.mem_singleton.mp hx]; exact hall
          · rw [List.nodup_append]
            exact ⟨hinv.2, List.nodup_singleton c,
              fun x hx hx2 => hmem (List.mem_singleton.mp hx2 ▸ hx)⟩
        · simp only [if_pos hall, if_neg hmem]
          exact hinv
      · simp only [if_neg hall]
        exact hinv
    · unfold remove_currency
      by_cases hmem : c ∈ cs
      · simp only [if_pos hmem]
        exact ⟨fun x hx => hinv.1 x (List.mem_of_mem_erase hx), hinv.2.erase c⟩
      · simp only [if_neg hmem]
        exact hinv
  · intro cs c hall
    simp [add_currency, hall]
  · intro cs c hall hmem
    simp [add_currency, hall, hmem]
  · intro cs c hmem
    simp [remove_currency, hmem]

/-- C6 witness: a concrete instantiation of the invariant theorem — adding
the untracked-but-invalid code XXX and re-adding USD both leave the initial
list unchanged with the informational message. -/
theorem tracked_currency_invariant_witness :
    add_currency ["USD", "EUR"] "XXX" =
      (["USD", "EUR"], "There is no such currency. Current currencies: USD, EUR") ∧
    add_currency ["USD", "EUR"] "USD" =
      (["USD", "EUR"], "USD is already in the list. Current currencies: USD, EUR") ∧
    trackedInv (add_currency ["USD", "EUR"] "GBP").1 := by
  refine ⟨?_, ?_, ?_⟩
  · rw [tracked_currency_invariant.2.2.1 ["USD", "EUR"] "XXX" (by decide)]
    rfl
  · rw [tracked_currency_invariant.2.2.2.1 ["USD", "EUR"] "USD" (by decide) (by decide)]
    rfl
  · exact (tracked_currency_invariant.2.1 ["USD", "EUR"] "GBP" (by decide)).1

/-- C10: `get_exchanges` never modifies the tracked currency list: on
success the resulting fetcher state keeps the same `currencies`, the
returned headers are exactly that unchanged list, and the state differs
from the input state at most in the cache store. -/
theorem get_exchanges_frame (fetch : String → Response) (st : FetcherState)
    (today : Date) (days : Nat) (log : List String) (st2 : FetcherState)
    (headers : List String) (res : List (String × Dict Triple))
    (h : get_exchanges fetch st today days = (log, Except.ok (st2, headers, res))) :
    st2.currencies = st.currencies ∧ headers = st.currencies ∧
      ∃ c2, st2 = { st with cacheFile := CacheFileContent.valid c2 } := by
  unfold get_exchanges at h
  rcases hl : load_json_sync st.cacheFile with e | cache
  · simp [hl] at h
  · simp only [hl] at h
    rcases hr : exchLoop fetch st.currencies today 0 days cache with ⟨log2, r2⟩
    simp only [hr] at h
    cases r2 with
    | error e => simp at h
    | ok pr =>
      obtain ⟨c2, res2⟩ := pr
      simp only [Prod.mk.injEq, Except.ok.injEq] at h
      obtain ⟨-, h2, h3, h4⟩ := h
      rw [← h2]
      exact ⟨rfl, h3.symm, c2, rfl⟩

/-- C10 witness: a concrete successful call (everything served from a
one-day cache) keeps the tracked list and returns it as headers. -/
theorem get_exchanges_frame_witness :
    ({ currencies := ["USD", "EUR"],
       cacheFile := CacheFileContent.valid
         [("12.10.2026", { exchangeRate := some [] })] } : FetcherState).currencies =
      ["USD", "EUR"] ∧
    (["USD", "EUR"] : List String) = ["USD", "EUR"] := by
  have h := get_exchanges_frame
    (fun _ => Response.status 200 (Body.json { exchangeRate := some [] }))
    { currencies := ["USD", "EUR"],
      cacheFile := CacheFileContent.valid [("12.10.2026", { exchangeRate := some [] })] }
    { year := 2026, month := 10, day := 12 } 1 []
    { currencies := ["USD", "EUR"],
      cacheFile := CacheFileContent.valid [("12.10.2026", { exchangeRate := some [] })] }
    ["USD", "EUR"]
    [("12.10.2026", [("USD", noData), ("EUR", noData)])]
    (by rfl)
  exact ⟨h.1, h.2.1⟩

/-- C3: every date for which `get_exchanges` issues an upstream request is
absent from the cache snapshot loaded at the start of the call; hence a date
present in the snapshot is served from the cache and never fetched. -/
theorem get_exchanges_no_refetch (fetch : String → Response) (st : FetcherState)
    (today : Date) (days : Nat) (d : String) (cache : Dict Payload)
    (hload : load_json_sync st.cacheFile = Except.ok cache)
    (hd : d ∈ (get_exchanges fetch st today days).1) :
    dget cache d = none := by
  unfold get_exchanges at hd
  simp only [hload] at hd
  rcases hr : exchLoop fetch st.currencies today 0 days cache with ⟨log2, r2⟩
  simp only [hr] at hd
  cases r2 with
  | error e =>
    simp only at hd
    refine exchLoop_log_fresh fetch st.currencies today days 0 cache d ?_
    rw [hr]
    exact hd
  | ok pr =>
    obtain ⟨c2, res2⟩ := pr
    simp only at hd
    refine exchLoop_log_fresh fetch st.currencies today days 0 cache d ?_
    rw [hr]
    exact hd

/-- C3 witness: with today cached and yesterday not, a two-day call fetches
exactly the uncached date, and that date is indeed absent from the loaded
snapshot. -/
theorem get_exchanges_no_refetch_witness :
    dget [("12.10.2026", ({ exchangeRate := some [] } : Payload))] "11.10.2026" = none := by
  refine get_exchanges_no_refetch
    (fun _ => Response.status 200 (Body.json { exchangeRate := some [] }))
    { currencies := ["USD", "EUR"],
      cacheFile := CacheFileContent.valid [("12.10.2026", { exchangeRate := some [] })] }
    { year := 2026, month := 10, day := 12 } 2 "11.10.2026"
    [("12.10.2026", { exchangeRate := some [] })] rfl ?_
  decide

/-- C4: the cache store only grows: a successful `get_exchanges` call
persists a store that keeps every previously cached entry with its payload
unchanged, adds an entry for every date it fetched, and contains no other
keys. -/
theorem cache_only_grows (fetch : String → Response) (st : FetcherState)
    (today : Date) (days : Nat) (log : List String) (st2 : FetcherState)
    (headers : List String) (res : List (String × Dict Triple)) (cache : Dict Payload)
    (h : get_exchanges fetch st today days = (log, Except.ok (st2, headers, res)))
    (hload : load_json_sync st.cacheFile = Except.ok cache) :
    ∃ c2, st2.cacheFile = CacheFileContent.valid c2 ∧
      (∀ k v, dget cache k = some v → dget c2 k = some v) ∧
      (∀ d ∈ log, ∃ v, dget c2 d = some v) ∧
      (∀ k, (dget c2 k).isSome → (dget cache k).isSome ∨ k ∈ log) := by
  unfold get_exchanges at h
  simp only [hload] at h
  rcases hr : exchLoop fetch st.currencies today 0 days cache with ⟨log2, r2⟩
  simp only [hr] at h
  cases r2 with
  | error e => simp at h
  | ok pr =>
    obtain ⟨c2, res2⟩ := pr
    simp only [Prod.mk.injEq, Except.ok.injEq] at h
    obtain ⟨h1, h2, -, -⟩ := h
    subst h1
    refine ⟨c2, ?_, ?_, ?_, ?_⟩
    · rw [← h2]
    · exact exchLoop_preserve fetch st.currencies today days 0 cache log2 c2 res2 (by rw [hr])
    · exact exchLoop_log_mem fetch st.currencies today days 0 cache log2 c2 res2 (by rw [hr])
    · exact exchLoop_new_keys fetch st.currencies today days 0 cache log2 c2 res2 (by rw [hr])

/-- C4 witness: a concrete two-day call over a one-day cache grows the
store by exactly the fetched date while keeping the old entry. -/
theorem cache_only_grows_witness :
    ∃ c2, ({ currencies := ["USD", "EUR"],
             cacheFile := CacheFileContent.valid
               [("12.10.2026", ({ exchangeRate := some [] } : Payload)),
                ("11.10.2026", ({ exchangeRate := some [] } : Payload))] } :
            FetcherState).cacheFile = CacheFileContent.valid c2 ∧
      (∀ k v, dget [("12.10.2026", ({ exchangeRate := some [] } : Payload))] k = some v →
        dget c2 k = some v) ∧
      (∀ d ∈ ["11.10.2026"], ∃ v, dget c2 d = some v) ∧
      (∀ k, (dget c2 k).isSome →
        (dget [("12.10.2026", ({ exchangeRate := some [] } : Payload))] k).isSome ∨
          k ∈ ["11.10.2026"]) := by
  refine cache_only_grows
    (fun _ => Response.status 200 (Body.json { exchangeRate := some [] }))
    { currencies := ["USD", "EUR"],
      cacheFile := CacheFileContent.valid [("12.10.2026", { exchangeRate := some [] })] }
    { year := 2026, month := 10, day := 12 } 2 ["11.10.2026"]
    { currencies := ["USD", "EUR"],
      cacheFile := CacheFileContent.valid
        [("12.10.2026", { exchangeRate := some [] }),
         ("11.10.2026", { exchangeRate := some [] })] }
    ["USD", "EUR"]
    [("12.10.2026", [("USD", noData), ("EUR", noData)]),
     ("11.10.2026", [("USD", noData), ("EUR", noData)])]
    [("12.10.2026", { exchangeRate := some [] })]
    (by rfl) rfl

/-- C7: normalization of a raw payload produces a row for exactly the
tracked currencies: an untracked code never appears; a tracked code maps to
the triple of the last payload entry naming it — each field two-decimal
formatted when the listed value is nonzero and the `---` sentinel when the
field is missing or zero — or to the all-sentinel row when the code is
absent from the payload; and the formatted value always carries exactly two
digits after the decimal point. -/
theorem normalization_tracked_rows (cs : List String) (lst : List CurDict) (c : String) :
    (c ∉ cs → dget (normalizeDay cs lst) c = none) ∧
    (c ∈ cs → dget (normalizeDay cs lst) c = some (ratesFor lst c)) ∧
    (lastEntryFor lst c = none → ratesFor lst c = noData) ∧
    (∀ cd, lastEntryFor lst c = some cd →
      ratesFor lst c =
        { buy := fmtField cd.purchaseRate, sell := fmtField cd.saleRate,
          NBU := fmtField cd.saleRateNB }) ∧
    (∀ v : ℚ, fmtField (some v) = if v = 0 then "---" else fmt2 v) ∧
    fmtField none = "---" ∧
    (∀ q : ℚ, 0 ≤ q → ∃ s t, fmt2 q = s ++ "." ++ t ∧ t.length = 2) := by
  refine ⟨?_, ?_, ?_, ?_, fun v => rfl, rfl, fmt2_two_decimals⟩
  · intro hm
    rw [dget_normalizeDay]
    simp [hm]
  · intro hm
    rw [dget_normalizeDay]
    simp [hm]
  · intro hl
    unfold ratesFor
    rw [hl]
  · intro cd hl
    unfold ratesFor
    rw [hl]
    rfl

/-- C7 witness: for tracked set {USD, EUR} and a payload listing USD with a
nonzero purchase rate, a zero sale rate and no NBU field, the USD row is
(41.30, ---, ---), and the untracked code GBP has no row. -/
theorem normalization_tracked_rows_witness :
    dget (normalizeDay ["USD", "EUR"]
        [{ currency := some "USD", purchaseRate := some (413 / 10),
           saleRate := some 0, saleRateNB := none }]) "USD" =
      some (ratesFor
        [{ currency := some "USD", purchaseRate := some (413 / 10),
           saleRate := some 0, saleRateNB := none }] "USD") ∧
    dget (normalizeDay ["USD", "EUR"]
        [{ currency := some "USD", purchaseRate := some (413 / 10),
           saleRate := some 0, saleRateNB := none }]) "GBP" = none ∧
    ratesFor
        [{ currency := some "USD", purchaseRate := some (413 / 10),
           saleRate := some 0, saleRateNB := none }] "USD" =
      { buy := "41.30", sell := "---", NBU := "---" } := by
  refine ⟨(normalization_tracked_rows ["USD", "EUR"] _ "USD").2.1 (by decide),
    (normalization_tracked_rows ["USD", "EUR"] _ "GBP").1 (by decide), ?_⟩
  have h := (normalization_tracked_rows ["USD", "EUR"]
    [{ currency := some "USD", purchaseRate := some (413 / 10),
       saleRate := some 0, saleRateNB := none }] "USD").2.2.2.1
    { currency := some "USD", purchaseRate := some (413 / 10),
      saleRate := some 0, saleRateNB := none } (by rfl)
  rw [h]
  have h1 : fmtField (some ((413 : ℚ) / 10)) = fmt2 (413 / 10) := by
    norm_num [fmtField]
  have h2 : fmt2 ((413 : ℚ) / 10) = "41.30" := by
    have hn : ¬ ((413 : ℚ) / 10 < 0) := by norm_num
    have hr : round (((413 : ℚ) / 10) * 100) = (4130 : ℤ) := by
      have he : ((413 : ℚ) / 10) * 100 = (4130 : ℚ) := by norm_num
      rw [he]
      norm_num [round_eq]
    rw [fmt2, if_neg hn, hr]
    decide
  simp only [h1, h2]
  decide

theorem get_exchanges_ok_shape (fetch : String → Response) (st : FetcherState)
    (today : Date) (days : Nat) (log : List String) (st2 : FetcherState)
    (headers : List String) (res : List (String × Dict Triple))
    (h : get_exchanges fetch st today days = (log, Except.ok (st2, headers, res))) :
    res.length = days ∧
    ∀ j (hj : j < res.length), (res.get ⟨j, hj⟩).1 = dateStr (backDays today j) := by
  unfold get_exchanges at h
  rcases hl : load_json_sync st.cacheFile with e | cache
  · simp [hl] at h
  · simp only [hl] at h
    rcases hr : exchLoop fetch st.currencies today 0 days cache with ⟨log2, r2⟩
    simp only [hr] at h
    cases r2 with
    | error e => simp at h
    | ok pr =>
      obtain ⟨c2, res2⟩ := pr
      simp only [Prod.mk.injEq, Except.ok.injEq] at h
      obtain ⟨-, -, -, h4⟩ := h
      subst h4
      obtain ⟨hlen, hg⟩ :=
        exchLoop_shape fetch st.currencies today days 0 cache log2 c2 res2 (by rw [hr])
      exact ⟨hlen, fun j hj => by simpa using hg j hj⟩

/-- C2: a show-exchange command that completes successfully sends the
requesting session exactly one table whose day entries number
`min(10, max(1, N))` when the argument token is purely numeric and 1 when
it is absent or non-numeric, ordered most recent day first with entry `j`
keyed by the `DD.MM.YYYY` rendering of `today - j`. -/
theorem exchange_table_days (fetch : String → Response) (today : Date)
    (st : ServerState) (ws : Session) (message : String) (st2 : ServerState)
    (sends : List (Session × Outgoing))
    (hpre : pyStartsWith message "exchange" = true)
    (hadd : isAddCmd (pySplit message) = false)
    (hrem : isRemoveCmd (pySplit message) = false)
    (h : exchange_command fetch today st ws (pySplit message) = Except.ok (st2, sends)) :
    handle_messages fetch today st ws message = Except.ok (st2, sends) ∧
    ∃ headers data,
      sends = [(ws, Outgoing.table headers data)] ∧
      data.length =
        (if (pySplit message).length > 1 && pyIsdigit ((pySplit message).getD 1 "") then
          min 10 (max 1 (parseNat ((pySplit message).getD 1 ""))) else 1) ∧
      ∀ j (hj : j < data.length), (data.get ⟨j, hj⟩).1 = dateStr (backDays today j) := by
  constructor
  · simp [handle_messages, hpre, h]
  · unfold exchange_command at h
    simp only [hadd, hrem, Bool.false_eq_true, if_false] at h
    rcases hge : get_exchanges fetch st.fetcher today (showDays (pySplit message))
      with ⟨log2, r2⟩
    rw [hge] at h
    cases r2 with
    | error e => simp at h
    | ok pr =>
      obtain ⟨fst2, headers, exchanges⟩ := pr
      simp only [Except.ok.injEq, Prod.mk.injEq] at h
      obtain ⟨-, h2⟩ := h
      refine ⟨headers, exchanges, h2.symm, ?_, ?_⟩
      · have := (get_exchanges_ok_shape fetch st.fetcher today
          (showDays (pySplit message)) log2 fst2 headers exchanges (by rw [hge])).1
        rw [this]
        rfl
      · exact (get_exchanges_ok_shape fetch st.fetcher today
          (showDays (pySplit message)) log2 fst2 headers exchanges (by rw [hge])).2

/-- C2 witness: the concrete command `exchange 2` against an empty cache
yields exactly the two-day table keyed 12.10.2026 then 11.10.2026. -/
theorem exchange_table_days_witness :
    handle_messages okFetchW wDate wState wSession "exchange 2" =
      Except.ok (wState2, wSends) ∧
    ∃ headers data,
      wSends = [(wSession, Outgoing.table headers data)] ∧
      data.length =
        (if (pySplit "exchange 2").length > 1 && pyIsdigit ((pySplit "exchange 2").getD 1 "") then
          min 10 (max 1 (parseNat ((pySplit "exchange 2").getD 1 ""))) else 1) ∧
      ∀ j (hj : j < data.length), (data.get ⟨j, hj⟩).1 = dateStr (backDays wDate j) :=
  exchange_table_days okFetchW wDate wState wSession "exchange 2" wState2 wSends
    rfl rfl rfl (by rfl)

/-- C1: if the upstream fetch fails (non-200 status, connection failure, or
invalid URL) for any requested day not covered by the loaded cache snapshot
— the environment being otherwise well formed — the whole show-exchange
call aborts with no table: the requesting session receives only the generic
failure message and the server state, in particular the durable cache
store, is exactly what it was before the call. -/
theorem fetch_failure_aborts (fetch : String → Response) (today : Date)
    (st : ServerState) (ws : Session) (message : String) (cache : Dict Payload)
    (hpre : pyStartsWith message "exchange" = true)
    (hadd : isAddCmd (pySplit message) = false)
    (hrem : isRemoveCmd (pySplit message) = false)
    (hload : load_json_sync st.fetcher.cacheFile = Except.ok cache)
    (henv : envGood fetch) (hcg : cacheGood cache)
    (hfail : ∃ j, j < showDays (pySplit message) ∧
      dget cache (dateStr (backDays today j)) = none ∧
      failsB (fetch (BASE_URL ++ dateStr (backDays today j))) = true) :
    handle_messages fetch today st ws message =
      Except.ok (st, [(ws, Outgoing.text "Something went wrong")]) := by
  obtain ⟨j, hj, hnone, hf⟩ := hfail
  obtain ⟨log, m, hlm⟩ := exchLoop_fails fetch st.fetcher.currencies today henv
    (showDays (pySplit message)) 0 cache hcg
    ⟨j, hj, by simpa using hnone, by simpa using hf⟩
  have hge : (get_exchanges fetch st.fetcher today (showDays (pySplit message))).2 =
      Except.error (PyError.httpError m) := by
    unfold get_exchanges
    simp [hload, hlm]
  have hec : exchange_command fetch today st ws (pySplit message) =
      Except.error (PyError.httpError m) := by
    unfold exchange_command
    simp only [hadd, hrem, Bool.false_eq_true, if_false]
    rw [hge]
  unfold handle_messages
  simp [hpre, hec]

/-- C1 witness: against an empty cache and an always-500 upstream, the
command `exchange` leaves the state untouched and sends only the generic
failure message. -/
theorem fetch_failure_aborts_witness :
    handle_messages failFetchW wDate wState wSession "exchange" =
      Except.ok (wState, [(wSession, Outgoing.text "Something went wrong")]) := by
  refine fetch_failure_aborts failFetchW wDate wState wSession "exchange" []
    rfl rfl rfl rfl ?_ ?_ ⟨0, by decide, rfl, rfl⟩
  · intro url h
    simp [failFetchW, failsB] at h
  · intro k p hk
    simp [dget] at hk

/-- C5 (amended): an `HttpError` raised inside the exchange dispatch is
caught at the dispatch boundary: the session receives the generic failure
message and the state is unchanged. -/
theorem http_error_caught (fetch : String → Response) (today : Date)
    (st : ServerState) (ws : Session) (message : String) (m : String)
    (hpre : pyStartsWith message "exchange" = true)
    (herr : exchange_command fetch today st ws (pySplit message) =
      Except.error (PyError.httpError m)) :
    handle_messages fetch today st ws message =
      Except.ok (st, [(ws, Outgoing.text "Something went wrong")]) := by
  unfold handle_messages
  simp [hpre, herr]

/-- C5 amended-theorem witness: the always-500 upstream raises an
`HttpError` inside `exchange 3`, which the dispatch boundary converts to
the generic failure message. -/
theorem http_error_caught_witness :
    handle_messages failFetchW wDate wState wSession "exchange 3" =
      Except.ok (wState, [(wSession, Outgoing.text "Something went wrong")]) :=
  http_error_caught failFetchW wDate wState wSession "exchange 3"
    ("Error status: 500 for " ++ BASE_URL ++ "12.10.2026") rfl (by rfl)

/-- C5 counterexample: with a cache file that is not valid JSON, the
decode error raised while loading the cache is not an `HttpError`, so it
escapes the command-dispatch boundary of `handle_messages` instead of
being caught — refuting the claim for every possible cache-file content. -/
theorem cache_error_escapes :
    handle_messages okFetchW wDate corruptState wSession "exchange" =
      Except.error PyError.jsonDecodeError := by rfl

/-- C8: a chat line (not `exchange`-prefixed) from a session is delivered,
as `"{name}: {text}"`, to exactly the sessions registered at send time —
the sender included when registered — and to nobody else. -/
theorem chat_broadcast (fetch : String → Response) (today : Date) (st : ServerState)
    (ws : Session) (message : String)
    (h : pyStartsWith message "exchange" = false) :
    handle_messages fetch today st ws message =
      Except.ok (st, send_to_clients st (ws.name ++ ": " ++ message)) ∧
    (send_to_clients st (ws.name ++ ": " ++ message)).map Prod.fst = st.clients ∧
    ∀ c ∈ st.clients,
      (c, Outgoing.text (ws.name ++ ": " ++ message)) ∈
        send_to_clients st (ws.name ++ ": " ++ message) := by
  refine ⟨?_, ?_, ?_⟩
  · unfold handle_messages
    simp [h]
  · unfold send_to_clients
    rw [List.map_map]
    exact List.map_id st.clients
  · intro c hc
    simp only [send_to_clients, List.mem_map]
    exact ⟨c, hc, rfl⟩

/-- C8 witness: a concrete chat line is delivered to both registered
sessions, the sender among them. -/
theorem chat_broadcast_witness :
    handle_messages okFetchW wDate wStateB wSession "hello all" =
      Except.ok (wStateB, send_to_clients wStateB (wSession.name ++ ": " ++ "hello all")) ∧
    (send_to_clients wStateB (wSession.name ++ ": " ++ "hello all")).map Prod.fst =
      wStateB.clients ∧
    ∀ c ∈ wStateB.clients,
      (c, Outgoing.text (wSession.name ++ ": " ++ "hello all")) ∈
        send_to_clients wStateB (wSession.name ++ ": " ++ "hello all") :=
  chat_broadcast okFetchW wDate wStateB wSession "hello all" rfl

/-- C9: a line is classified as plain chat (and broadcast verbatim,
bypassing the exchange pipeline) exactly when it does not begin with the
literal text `exchange`; every line that does begin with it parses as an
add, remove, or show-exchange command. -/
theorem chat_classification (fetch : String → Response) (today : Date)
    (st : ServerState) (ws : Session) (message : String) :
    (classify message = Command.chat message ↔
      pyStartsWith message "exchange" = false) ∧
    (pyStartsWith message "exchange" = false →
      handle_messages fetch today st ws message =
        Except.ok (st, send_to_clients st (ws.name ++ ": " ++ message))) ∧
    (pyStartsWith message "exchange" = true →
      (∃ c, classify message = Command.addCurrency c) ∨
      (∃ c, classify message = Command.removeCurrency c) ∨
      (∃ n, classify message = Command.showExchange n)) := by
  refine ⟨⟨?_, ?_⟩, ?_, ?_⟩
  · intro h
    cases hx : pyStartsWith message "exchange"
    · rfl
    · unfold classify at h
      rw [hx] at h
      by_cases h1 : isAddCmd (pySplit message)
      · simp [h1] at h
      · by_cases h2 : isRemoveCmd (pySplit message)
        · simp [h1, h2] at h
        · simp [h1, h2] at h
  · intro h
    unfold classify
    rw [h]
    rfl
  · intro h
    unfold handle_messages
    simp [h]
  · intro h
    unfold classify
    rw [h]
    by_cases h1 : isAddCmd (pySplit message)
    · refine Or.inl ⟨pyUpper ((pySplit message).getD 2 ""), ?_⟩
      simp [h1]
    · by_cases h2 : isRemoveCmd (pySplit message)
      · refine Or.inr (Or.inl ⟨pyUpper ((pySplit message).getD 2 ""), ?_⟩)
        simp [h1, h2]
      · refine Or.inr (Or.inr ⟨showDays (pySplit message), ?_⟩)
        simp [h1, h2]

/-- C9 witness: `exchange remove usd` parses as an exchange command, and a
plain line is broadcast as chat. -/
theorem chat_classification_witness :
    ((∃ c, classify "exchange remove usd" = Command.addCurrency c) ∨
     (∃ c, classify "exchange remove usd" = Command.removeCurrency c) ∨
     (∃ n, classify "exchange remove usd" = Command.showExchange n)) ∧
    handle_messages okFetchW wDate wState wSession "hi" =
      Except.ok (wState, send_to_clients wState (wSession.name ++ ": " ++ "hi")) :=
  ⟨(chat_classification okFetchW wDate wState wSession "exchange remove usd").2.2 rfl,
   (chat_classification okFetchW wDate wState wSession "hi").2.1 rfl⟩
